import Mathlib

/-!
Shallow embedding of the core of `src/ntfy.py` (a desktop ntfy client):
the message model, the deduplicating message history (`MessagePanel`),
the subscription registry (`SubscriptionPanel`), the admission-plus-notify
path (`NtfyGUI.add_message_and_notify`), the stream line-processing loop
(`NtfyGUI.listen_subscription_messages`), the history fetcher
(`NtfyGUI.fetch_history`) and the reconnect backoff loop
(`NtfyGUI.listen_subscription_with_reconnect`).

Python dicts holding JSON values are modelled as association lists over a
dynamic value type `JVal`; the messages flowing through the admission path
are modelled with their typed view `Msg` (string id/event, integer time),
which is all `MessagePanel.add_message` reads.
-/

/-- A dynamic JSON-like value, the type of the fields a Python dict can hold.
Mirrors what `json.loads` can produce. -/
inductive JVal where
  | str : String → JVal
  | num : Int → JVal
  | bool : Bool → JVal
  | arr : List JVal → JVal
  | obj : List (String × JVal) → JVal
  | null : JVal

/-- Python `dict.get(key, default)` on an association list. -/
def dictGet (data : List (String × JVal)) (key : String) (dflt : JVal) : JVal :=
  (data.lookup key).getD dflt

/-- `NtfyMessage` (src/ntfy.py lines 16-29): one field per key read by
`__init__`, each holding the raw dict value (Python is untyped). -/
structure NtfyMessage where
  id : JVal
  time : JVal
  event : JVal
  topic : JVal
  message : JVal
  title : JVal
  tags : JVal
  priority : JVal
  click : JVal
  attachment : JVal
  server : JVal

/-- `NtfyMessage.__init__(data)` (lines 18-29): each field is
`data.get(key, default)` with the defaults of the source. -/
def NtfyMessage.ofData (data : List (String × JVal)) : NtfyMessage where
  id := dictGet data "id" (.str "")
  time := dictGet data "time" (.num 0)
  event := dictGet data "event" (.str "")
  topic := dictGet data "topic" (.str "")
  message := dictGet data "message" (.str "")
  title := dictGet data "title" (.str "")
  tags := dictGet data "tags" (.arr [])
  priority := dictGet data "priority" (.num 3)
  click := dictGet data "click" (.str "")
  attachment := dictGet data "attachment" (.obj [])
  server := dictGet data "server" (.str "")

/-- `NtfyMessage.to_dict` (lines 40-54): the dict with exactly the eleven
keys, in source order. -/
def NtfyMessage.to_dict (m : NtfyMessage) : List (String × JVal) :=
  [("id", m.id), ("time", m.time), ("event", m.event), ("topic", m.topic),
   ("message", m.message), ("title", m.title), ("tags", m.tags),
   ("priority", m.priority), ("click", m.click), ("attachment", m.attachment),
   ("server", m.server)]

/-- Typed view of a message as the admission path reads it:
`add_message` only touches `event` (string), `id` (string, Python-truthy
iff non-empty), `time` (integer ordering), and `add_message_and_notify`
additionally reads `server`/`topic` for the per-subscription key. -/
structure Msg where
  id : String
  time : Int
  event : String
  topic : String
  server : String
deriving DecidableEq, Repr

/-- The mutable state of `MessagePanel` (lines 56-61): the dedup set
`message_ids` (a Python `set`, modelled as the list of its elements) and
the ordered history `messages`. -/
structure MessagePanel where
  message_ids : List String
  messages : List Msg
deriving DecidableEq, Repr

/-- `MessagePanel.__init__`: empty dedup set, empty history. -/
def MessagePanel.initial : MessagePanel := ⟨[], []⟩

/-- The insertion-position scan of `add_message` (lines 117-121):
`insert_index` ends as the number of leading entries whose time is ≥ the
new message's time (the loop breaks at the first strictly older entry). -/
def insertScan (t : Int) : List Msg → Nat
  | [] => 0
  | m :: rest => if t > m.time then 0 else insertScan t rest + 1

/-- `MessagePanel.add_message` (lines 107-126): returns whether the
message was newly admitted together with the updated panel. -/
def MessagePanel.add_message (p : MessagePanel) (message : Msg) : Bool × MessagePanel :=
  if message.event = "message" ∧ message.id ≠ "" then
    if message.id ∈ p.message_ids then (false, p)
    else
      let ids := message.id :: p.message_ids
      let idx := insertScan message.time p.messages
      (true, ⟨ids, p.messages.insertIdx idx message⟩)
  else (false, p)

/-- `MessagePanel.clear_messages` (lines 189-194): empties both the
history and the dedup set. -/
def MessagePanel.clear_messages (_p : MessagePanel) : MessagePanel := ⟨[], []⟩

/-- `MessagePanel.load_messages` (lines 128-150), over the typed view of
the persisted dicts: clears the panel, keeps the first occurrence of each
id while seeding the dedup set, then stably sorts by time descending. -/
def MessagePanel.load_messages (p : MessagePanel) (messages_data : List Msg) : MessagePanel :=
  let p0 := p.clear_messages
  let step := fun (acc : List Msg × List String) (data : Msg) =>
    if data.id ∈ acc.2 then acc else (acc.1 ++ [data], data.id :: acc.2)
  let (loaded, ids) := messages_data.foldl step ([], p0.message_ids)
  ⟨ids, loaded.mergeSort (fun a b => decide (b.time ≤ a.time))⟩

/-- A subscription entry (`SubscriptionPanel.add_subscription`,
lines 246-265): the dict `{'server', 'topic', 'status', 'message_count'}`. -/
structure Subscription where
  server : String
  topic : String
  status : String
  message_count : Nat
deriving DecidableEq, Repr

/-- The URL normalization inside `add_subscription` (lines 251-253):
prepend `https://` unless the URL already starts with `http://` or
`https://` (`str.startswith`, modelled as a character-list prefix test),
then strip all trailing slashes (Python `rstrip('/')`, modelled by
dropping the trailing run of `'/'` characters). -/
def normalizeServerURL (server_url : String) : String :=
  let s := if "http://".data.isPrefixOf server_url.data
      || "https://".data.isPrefixOf server_url.data
    then server_url else "https://" ++ server_url
  String.mk ((s.data.reverse.dropWhile (fun c => c = '/')).reverse)

/-- `SubscriptionPanel.add_subscription` (lines 246-265): rejects empty
server or topic, normalizes the URL, rejects a duplicate
`(server, topic)` key, otherwise appends the new entry. -/
def SubscriptionPanel.add_subscription (subs : List Subscription)
    (server_url topic_name : String) : Bool × List Subscription :=
  if server_url = "" ∨ topic_name = "" then (false, subs)
  else if subs.any (fun s =>
      s.server = normalizeServerURL server_url && s.topic = topic_name) then
    (false, subs)
  else (true, subs ++ [⟨normalizeServerURL server_url, topic_name, "未连接", 0⟩])

/-- Folding `add_subscription` over a list of `(server, topic)` requests,
starting from a given registry. -/
def SubscriptionPanel.addAll (subs : List Subscription) :
    List (String × String) → List Subscription
  | [] => subs
  | (u, t) :: rest =>
    SubscriptionPanel.addAll (SubscriptionPanel.add_subscription subs u t).2 rest

/-- The GUI state touched by `add_message_and_notify` (lines 612-631): the
message panel and the per-subscription message counters
(`sub_message_counts`, a dict keyed by `(server, topic)`). -/
structure GuiState where
  panel : MessagePanel
  counts : List ((String × String) × Nat)
deriving DecidableEq, Repr

/-- Python dict assignment `d[k] = v` on an association list. -/
def setAssoc : List ((String × String) × Nat) → (String × String) → Nat →
    List ((String × String) × Nat)
  | [], k, v => [(k, v)]
  | (k', v') :: rest, k, v =>
    if k' = k then (k, v) :: rest else (k', v') :: setAssoc rest k v

/-- `NtfyGUI.add_message_and_notify` (lines 612-631): admits the message,
on admission bumps the per-subscription counter, and emits the tray/status
notification exactly when the message was newly admitted AND came from a
live stream. Returns the new state and whether the notification fired. -/
def add_message_and_notify (s : GuiState) (message : Msg)
    (is_live_message : Bool) : GuiState × Bool :=
  let r := s.panel.add_message message
  if r.1 then
    let sub_key := (message.server, message.topic)
    let counts' := setAssoc s.counts sub_key ((s.counts.lookup sub_key).getD 0 + 1)
    (⟨r.2, counts'⟩, is_live_message)
  else (⟨r.2, s.counts⟩, false)

/-- One line as the worker's loop sees it: empty (skipped), not JSON
decodable (`json.JSONDecodeError` branch), or decoded to a message (typed
view, with `data['server']` already stamped by the caller). -/
inductive LineEvent where
  | blank
  | malformed
  | valid (m : Msg)

/-- Result of running a line-processing loop. -/
structure LoopResult where
  state : GuiState
  admitted : Nat
  decodeErrors : Nat
  notifs : Nat
deriving DecidableEq, Repr

/-- The line loop of `NtfyGUI.listen_subscription_messages`
(lines 649-660), with the stop flag down: skip empty lines, count a
decode error for each malformed line (the `except json.JSONDecodeError`
branch logs and continues), and feed each decoded message through
`add_message_and_notify` with `is_live_message=True`. The function is
total: the decode-error branch is recovered locally, nothing escapes the
loop. -/
def listenLoop (s : GuiState) : List LineEvent → LoopResult
  | [] => ⟨s, 0, 0, 0⟩
  | .blank :: rest => listenLoop s rest
  | .malformed :: rest =>
    let r := listenLoop s rest
    ⟨r.state, r.admitted, r.decodeErrors + 1, r.notifs⟩
  | .valid m :: rest =>
    let a := add_message_and_notify s m true
    let newly := (s.panel.add_message m).1
    let r := listenLoop a.1 rest
    ⟨r.state, (if newly then 1 else 0) + r.admitted, r.decodeErrors,
      (if a.2 then 1 else 0) + r.notifs⟩

/-- Result of one subscription's history poll in `fetch_history`. -/
structure FetchResult where
  state : GuiState
  counted : Nat
  admitted : Nat
  notifs : Nat
deriving DecidableEq, Repr

/-- The per-subscription line loop of `NtfyGUI.fetch_history`
(lines 680-692): each decoded message goes through
`add_message_and_notify` with `is_live_message=False`, and
`total_messages_fetched` is incremented for every decoded line whose
`event` is `'message'` — with no regard to whether it was newly
admitted. -/
def fetchLoop (s : GuiState) : List LineEvent → FetchResult
  | [] => ⟨s, 0, 0, 0⟩
  | .blank :: rest => fetchLoop s rest
  | .malformed :: rest => fetchLoop s rest
  | .valid m :: rest =>
    let a := add_message_and_notify s m false
    let newly := (s.panel.add_message m).1
    let r := fetchLoop a.1 rest
    ⟨r.state, (if m.event = "message" then 1 else 0) + r.counted,
      (if newly then 1 else 0) + r.admitted, (if a.2 then 1 else 0) + r.notifs⟩

/-- `NtfyGUI.fetch_history` (lines 667-700) across subscriptions: each
subscription's poll either fails as a whole (`requests.RequestException`
— logged, the remaining subscriptions still run, modelled as `none`) or
yields its list of lines; the completion status reports the accumulated
`total_messages_fetched`. -/
def fetch_history (s : GuiState) : List (Option (List LineEvent)) → GuiState × Nat
  | [] => (s, 0)
  | none :: rest => fetch_history s rest
  | some lines :: rest =>
    let r := fetchLoop s lines
    let rec' := fetch_history r.state rest
    (rec'.1, r.counted + rec'.2)

/-- `self.reconnect_delay = 5` (line 477): the fixed backoff, in seconds. -/
def reconnect_delay : Nat := 5

/-- The backoff loop of `listen_subscription_with_reconnect`
(lines 589-591 and 601-603):
`for _ in range(delay): if self.stop_listening: return; time.sleep(1)`.
`stopAt k` is the value the shared stop flag is observed to have at the
check preceding the `k`-th one-second sleep. Returns `some k` when the
flag is seen raised after exactly `k` completed sleeps (the worker
returns), `none` when all `delay` ticks complete. -/
def backoffWait : Nat → (Nat → Bool) → Option Nat
  | 0, _ => none
  | d + 1, stopAt =>
    if stopAt 0 then some 0
    else
      match backoffWait d (fun k => stopAt (k + 1)) with
      | some j => some (j + 1)
      | none => none

/-- The status label pushed before the backoff: `f"重连中({n})"` on a clean
stream end (line 588), `f"错误,重连中({n})"` on an exception (line 600). -/
def reconnectLabel (streamErrored : Bool) (n : Nat) : String :=
  (if streamErrored then "错误,重连中(" else "重连中(") ++ toString n ++ ")"

/-- Observable outcome of the code that runs after
`listen_subscription_messages` returns or raises, inside one iteration of
the `while not self.stop_listening` loop (lines 583-606): the attempt
counter afterwards, the status strings pushed (in order, including the
`"连接中..."` of line 580 that the next loop iteration pushes when the
worker reconnects), whether the worker re-enters Connecting, and how many
whole one-second sleeps it performed. -/
structure ReconnectPhase where
  attempts : Nat
  statuses : List String
  reenters : Bool
  sleeps : Nat
deriving DecidableEq, Repr

/-- The post-stream step of `listen_subscription_with_reconnect`
(lines 583-606): `stopNow` is the stop flag read right after the stream
ended (line 583 / 595); `streamErrored` selects the `except` branch;
`stopAt` gives the stop-flag readings during the backoff ticks. -/
def afterStreamEnd (auto_reconnect streamErrored : Bool) (attempts delay : Nat)
    (stopNow : Bool) (stopAt : Nat → Bool) : ReconnectPhase :=
  if stopNow then ⟨attempts, [], false, 0⟩
  else if auto_reconnect then
    let n := attempts + 1
    match backoffWait delay stopAt with
    | some k => ⟨n, [reconnectLabel streamErrored n], false, k⟩
    | none => ⟨n, [reconnectLabel streamErrored n, "连接中..."], true, delay⟩
  else if streamErrored then ⟨attempts, ["连接错误"], false, 0⟩
  else ⟨attempts, [], false, 0⟩

/-- Admitting a whole list of messages in order, one `add_message` each. -/
def MessagePanel.admitAll (p : MessagePanel) : List Msg → MessagePanel
  | [] => p
  | m :: rest => MessagePanel.admitAll (p.add_message m).2 rest

/-- Sample messages used by the concrete witnesses below. -/
def mA : Msg := ⟨"a", 5, "message", "alerts", "https://ntfy.sh"⟩

/-- A second sample message with the same timestamp as `mA`. -/
def mB : Msg := ⟨"b", 5, "message", "alerts", "https://ntfy.sh"⟩

/-- A sample message with a later timestamp. -/
def mC : Msg := ⟨"c", 6, "message", "alerts", "https://ntfy.sh"⟩


/-- The order the panel maintains: timestamps non-increasing front to back. -/
def sortedDesc (l : List Msg) : Prop :=
  l.Pairwise (fun a b => b.time ≤ a.time)

/-- Whether a line decodes to a message-kind event. -/
def isMessageLine : LineEvent → Bool
  | .valid m => decide (m.event = "message")
  | _ => false

/-- No two registry entries share the `(server, topic)` key. -/
def subKeyDistinct (subs : List Subscription) : Prop :=
  subs.Pairwise (fun a b => ¬(a.server = b.server ∧ a.topic = b.topic))

/-- The state used by the C4 counterexample: the id of `mA` is already in
the dedup index (e.g. it arrived earlier over the live stream). -/
def dupState : GuiState := ⟨⟨["a"], [mA]⟩, []⟩

/-! ### Helper lemmas -/

lemma insertIdx_insertScan (msg : Msg) (l : List Msg) :
    l.insertIdx (insertScan msg.time l) msg =
      l.takeWhile (fun x => decide (msg.time ≤ x.time)) ++
        msg :: l.dropWhile (fun x => decide (msg.time ≤ x.time)) := by
  induction l with
  | nil => rfl
  | cons m rest ih =>
    by_cases h : msg.time > m.time
    · have hp : decide (msg.time ≤ m.time) = false := by
        simp [not_le.mpr h]
      simp [insertScan, h, List.takeWhile_cons, List.dropWhile_cons, hp]
    · have hle : msg.time ≤ m.time := not_lt.mp h
      have hp : decide (msg.time ≤ m.time) = true := by simp [hle]
      simp [insertScan, h, List.takeWhile_cons, List.dropWhile_cons, hp, ih]

lemma sortedDesc_insert (msg : Msg) (l : List Msg) (h : sortedDesc l) :
    sortedDesc (l.takeWhile (fun x => decide (msg.time ≤ x.time)) ++
      msg :: l.dropWhile (fun x => decide (msg.time ≤ x.time))) := by
  induction l with
  | nil => simp [sortedDesc]
  | cons m rest ih =>
    unfold sortedDesc at h
    rw [List.pairwise_cons] at h
    obtain ⟨hm, hrest⟩ := h
    by_cases hp : msg.time ≤ m.time
    · have hpb : decide (msg.time ≤ m.time) = true := by simp [hp]
      have ht : (m :: rest).takeWhile (fun x => decide (msg.time ≤ x.time))
          = m :: rest.takeWhile (fun x => decide (msg.time ≤ x.time)) := by
        rw [List.takeWhile_cons, hpb]; rfl
      have hd : (m :: rest).dropWhile (fun x => decide (msg.time ≤ x.time))
          = rest.dropWhile (fun x => decide (msg.time ≤ x.time)) := by
        rw [List.dropWhile_cons, hpb]; rfl
      rw [ht, hd]
      unfold sortedDesc
      rw [List.cons_append, List.pairwise_cons]
      refine ⟨?_, ih hrest⟩
      intro x hx
      rcases List.mem_append.mp hx with hx1 | hx2
      · exact hm x ((List.takeWhile_sublist _).subset hx1)
      · rcases List.mem_cons.mp hx2 with rfl | hx3
        · exact hp
        · exact hm x ((List.dropWhile_sublist _).subset hx3)
    · have hpb : decide (msg.time ≤ m.time) = false := by simp [hp]
      have ht : (m :: rest).takeWhile (fun x => decide (msg.time ≤ x.time))
          = [] := by
        rw [List.takeWhile_cons, hpb]; rfl
      have hd : (m :: rest).dropWhile (fun x => decide (msg.time ≤ x.time))
          = m :: rest := by
        rw [List.dropWhile_cons, hpb]; rfl
      rw [ht, hd]
      unfold sortedDesc
      rw [List.nil_append, List.pairwise_cons]
      refine ⟨?_, ?_⟩
      · intro x hx
        rcases List.mem_cons.mp hx with rfl | hx2
        · exact le_of_lt (not_le.mp hp)
        · exact le_trans (hm x hx2) (le_of_lt (not_le.mp hp))
      · rw [List.pairwise_cons]
        exact ⟨hm, hrest⟩

lemma add_message_not_eligible (p : MessagePanel) (m : Msg)
    (h : ¬(m.event = "message" ∧ m.id ≠ "")) : p.add_message m = (false, p) := by
  simp [MessagePanel.add_message, h]

lemma add_message_mem (p : MessagePanel) (m : Msg)
    (h : m.id ∈ p.message_ids) : p.add_message m = (false, p) := by
  by_cases helig : m.event = "message" ∧ m.id ≠ ""
  · simp [MessagePanel.add_message, helig, h]
  · simp [MessagePanel.add_message, helig]

lemma add_message_fresh (p : MessagePanel) (m : Msg) (h1 : m.event = "message")
    (h2 : m.id ≠ "") (h3 : m.id ∉ p.message_ids) :
    p.add_message m =
      (true, ⟨m.id :: p.message_ids,
        p.messages.insertIdx (insertScan m.time p.messages) m⟩) := by
  simp [MessagePanel.add_message, h1, h2, h3]

lemma add_message_sorted (p : MessagePanel) (m : Msg) (h : sortedDesc p.messages) :
    sortedDesc (p.add_message m).2.messages := by
  by_cases helig : m.event = "message" ∧ m.id ≠ ""
  · by_cases hmem : m.id ∈ p.message_ids
    · rw [add_message_mem p m hmem]; exact h
    · rw [add_message_fresh p m helig.1 helig.2 hmem]
      simpa [insertIdx_insertScan] using sortedDesc_insert m p.messages h
  · rw [add_message_not_eligible p m helig]; exact h

lemma admitAll_sorted (p : MessagePanel) (msgs : List Msg) (h : sortedDesc p.messages) :
    sortedDesc (p.admitAll msgs).messages := by
  induction msgs generalizing p with
  | nil => exact h
  | cons m rest ih =>
    exact ih (p.add_message m).2 (add_message_sorted p m h)

lemma amn_notified (s : GuiState) (m : Msg) (live : Bool) :
    (add_message_and_notify s m live).2 = ((s.panel.add_message m).1 && live) := by
  by_cases h : (s.panel.add_message m).1 <;> simp [add_message_and_notify, h]

lemma amn_panel (s : GuiState) (m : Msg) (live : Bool) :
    (add_message_and_notify s m live).1.panel = (s.panel.add_message m).2 := by
  by_cases h : (s.panel.add_message m).1 <;> simp [add_message_and_notify, h]

lemma fetchLoop_notifs (s : GuiState) (lines : List LineEvent) :
    (fetchLoop s lines).notifs = 0 := by
  induction lines generalizing s with
  | nil => rfl
  | cons e rest ih =>
    cases e with
    | blank => simpa [fetchLoop] using ih s
    | malformed => simpa [fetchLoop] using ih s
    | valid m => simp [fetchLoop, amn_notified, ih]

lemma listenLoop_notifs (s : GuiState) (lines : List LineEvent) :
    (listenLoop s lines).notifs = (listenLoop s lines).admitted := by
  induction lines generalizing s with
  | nil => rfl
  | cons e rest ih =>
    cases e with
    | blank => simpa [listenLoop] using ih s
    | malformed => simpa [listenLoop] using ih s
    | valid m => simp [listenLoop, amn_notified, ih]

lemma fetchLoop_counted (s : GuiState) (lines : List LineEvent) :
    (fetchLoop s lines).counted = lines.countP isMessageLine := by
  induction lines generalizing s with
  | nil => rfl
  | cons e rest ih =>
    cases e with
    | blank => simp [fetchLoop, List.countP_cons, isMessageLine, ih]
    | malformed => simp [fetchLoop, List.countP_cons, isMessageLine, ih]
    | valid m =>
      by_cases h : m.event = "message" <;>
        simp [fetchLoop, List.countP_cons, isMessageLine, h, ih, Nat.add_comm]

lemma fetch_history_total (s : GuiState) (subs : List (Option (List LineEvent))) :
    (fetch_history s subs).2 =
      (subs.map (fun o => (o.getD []).countP isMessageLine)).sum := by
  induction subs generalizing s with
  | nil => rfl
  | cons o rest ih =>
    cases o with
    | none => simpa [fetch_history] using ih s
    | some lines => simp [fetch_history, fetchLoop_counted, ih]

lemma backoffWait_completes (d : Nat) (stopAt : Nat → Bool)
    (h : ∀ k, k < d → stopAt k = false) : backoffWait d stopAt = none := by
  induction d generalizing stopAt with
  | zero => rfl
  | succ n ih =>
    have h0 : stopAt 0 = false := h 0 (Nat.succ_pos n)
    simp [backoffWait, h0,
      ih (fun k => stopAt (k + 1)) (fun k hk => h (k + 1) (by omega))]

lemma backoffWait_stops (d k : Nat) (stopAt : Nat → Bool) (hk : k < d)
    (hstop : stopAt k = true) (hmin : ∀ j, j < k → stopAt j = false) :
    backoffWait d stopAt = some k := by
  induction d generalizing stopAt k with
  | zero => omega
  | succ n ih =>
    cases k with
    | zero => simp [backoffWait, hstop]
    | succ j =>
      have h0 : stopAt 0 = false := hmin 0 (Nat.succ_pos j)
      have hrec := ih j (fun i => stopAt (i + 1)) (by omega) hstop
        (fun i hi => hmin (i + 1) (by omega))
      simp [backoffWait, h0, hrec]

lemma head_dropWhile_false {α : Type} (p : α → Bool) (l : List α) (a : α)
    (h : (l.dropWhile p).head? = some a) : p a = false := by
  induction l with
  | nil => simp [List.dropWhile] at h
  | cons x xs ih =>
    rw [List.dropWhile_cons] at h
    split at h
    · exact ih h
    · simp_all

lemma normalizeServerURL_no_trailing_slash (u : String) :
    (normalizeServerURL u).data.getLast? ≠ some '/' := by
  unfold normalizeServerURL
  intro hcontra
  rw [List.getLast?_eq_head?_reverse, List.reverse_reverse] at hcontra
  have := head_dropWhile_false (fun c => decide (c = '/')) _ _ hcontra
  simp at this

lemma listenLoop_all_fresh (s : GuiState) (ms : List Msg)
    (hfresh : ∀ m ∈ ms, m.event = "message" ∧ m.id ≠ "" ∧ m.id ∉ s.panel.message_ids)
    (hdup : ms.Pairwise (fun a b => a.id ≠ b.id)) :
    (listenLoop s (ms.map .valid)).admitted = ms.length ∧
    (listenLoop s (ms.map .valid)).decodeErrors = 0 := by
  induction ms generalizing s with
  | nil => exact ⟨rfl, rfl⟩
  | cons m rest ih =>
    obtain ⟨h1, h2, h3⟩ := hfresh m (List.mem_cons_self m rest)
    have hadd := add_message_fresh s.panel m h1 h2 h3
    have hnew : (s.panel.add_message m).1 = true := by rw [hadd]
    rw [List.pairwise_cons] at hdup
    have hids : (add_message_and_notify s m true).1.panel.message_ids
        = m.id :: s.panel.message_ids := by
      rw [amn_panel, hadd]
    have hfresh' : ∀ m' ∈ rest, m'.event = "message" ∧ m'.id ≠ "" ∧
        m'.id ∉ (add_message_and_notify s m true).1.panel.message_ids := by
      intro m' hm'
      obtain ⟨g1, g2, g3⟩ := hfresh m' (List.mem_cons_of_mem _ hm')
      refine ⟨g1, g2, ?_⟩
      rw [hids]
      intro hmem
      rcases List.mem_cons.mp hmem with heq | hmem2
      · exact hdup.1 m' hm' heq.symm
      · exact g3 hmem2
    have hrec := ih (add_message_and_notify s m true).1 hfresh' hdup.2
    constructor
    · simp [listenLoop, hnew, hrec.1, Nat.add_comm]
    · simp [listenLoop, hrec.2]

lemma load_foldl_ids (data : List Msg) (acc : List Msg × List String) (x : String) :
    x ∈ (data.foldl (fun acc d =>
        if d.id ∈ acc.2 then acc else (acc.1 ++ [d], d.id :: acc.2)) acc).2
      ↔ x ∈ acc.2 ∨ x ∈ data.map Msg.id := by
  induction data generalizing acc with
  | nil => simp
  | cons d rest ih =>
    by_cases h : d.id ∈ acc.2
    · rw [List.foldl_cons, if_pos h, ih]
      simp only [List.map_cons, List.mem_cons]
      constructor
      · rintro (hx | hx)
        · exact Or.inl hx
        · exact Or.inr (Or.inr hx)
      · rintro (hx | rfl | hx)
        · exact Or.inl hx
        · exact Or.inl h
        · exact Or.inr hx
    · rw [List.foldl_cons, if_neg h, ih]
      simp only [List.mem_cons, List.map_cons]
      tauto

lemma add_subscription_distinct (subs : List Subscription) (u t : String)
    (h : subKeyDistinct subs) :
    subKeyDistinct (SubscriptionPanel.add_subscription subs u t).2 := by
  unfold SubscriptionPanel.add_subscription
  split
  · exact h
  · split
    · exact h
    · rename_i hany
      unfold subKeyDistinct
      rw [List.pairwise_append]
      refine ⟨h, List.pairwise_singleton _ _, ?_⟩
      intro a ha b hb
      rw [List.mem_singleton] at hb
      subst hb
      simp only [List.any_eq_true, Bool.and_eq_true, decide_eq_true_eq] at hany
      intro hkey
      exact hany ⟨a, ha, hkey.1, hkey.2⟩

lemma addAll_distinct (reqs : List (String × String)) (subs : List Subscription)
    (h : subKeyDistinct subs) : subKeyDistinct (SubscriptionPanel.addAll subs reqs) := by
  induction reqs generalizing subs with
  | nil => exact h
  | cons r rest ih =>
    exact ih _ (add_subscription_distinct subs r.1 r.2 h)

/-! ### Claims -/

/-- C1, counterexample: admitting `mA` (time 5) and then `mB` (same time 5,
different id) from an empty panel leaves the history as `[mA, mB]` — the
most-recently-admitted equal-timestamp message is placed AFTER the older
equal-timestamp entry, not before it as the claim states. -/
theorem c1_tie_placed_after_counterexample :
    mA.time = mB.time ∧ mA.id ≠ mB.id ∧
    ((MessagePanel.initial.add_message mA).2.add_message mB).2.messages
      = [mA, mB] := by decide

/-- C1, amended: for every sequence of admissions the history stays sorted
by timestamp in (non-strict) descending order, and an admitted message is
inserted after every entry whose timestamp is greater than or EQUAL to its
own and before all strictly older entries — ties are resolved
most-recently-admitted-LAST. -/
theorem c1_history_order (msgs : List Msg) (p : MessagePanel) (m : Msg) :
    sortedDesc (MessagePanel.initial.admitAll msgs).messages ∧
    ((p.add_message m).1 = true →
      (p.add_message m).2.messages =
        p.messages.takeWhile (fun x => decide (m.time ≤ x.time)) ++
          m :: p.messages.dropWhile (fun x => decide (m.time ≤ x.time))) := by
  constructor
  · exact admitAll_sorted MessagePanel.initial msgs List.Pairwise.nil
  · intro hadm
    by_cases helig : m.event = "message" ∧ m.id ≠ ""
    · by_cases hmem : m.id ∈ p.message_ids
      · rw [add_message_mem p m hmem] at hadm
        simp at hadm
      · rw [add_message_fresh p m helig.1 helig.2 hmem]
        simpa using insertIdx_insertScan m p.messages
    · rw [add_message_not_eligible p m helig] at hadm
      simp at hadm

/-- Witness for C1 (amended), at a panel holding `mA` and the
equal-timestamp arrival `mB`. -/
theorem c1_history_order_witness :
    ((⟨["a"], [mA]⟩ : MessagePanel).add_message mB).2.messages =
      [mA].takeWhile (fun x => decide (mB.time ≤ x.time)) ++
        mB :: [mA].dropWhile (fun x => decide (mB.time ≤ x.time)) :=
  (c1_history_order [] ⟨["a"], [mA]⟩ mB).2 (by decide)

/-- C2: admission is idempotent per id — a message whose id is already in
the dedup index is reported "not admitted" with no mutation, and a second
admission of any message right after the first always returns
`(false, unchanged)`. -/
theorem c2_dedup_idempotent (p : MessagePanel) (m : Msg) :
    (m.id ∈ p.message_ids → p.add_message m = (false, p)) ∧
    (p.add_message m).2.add_message m = (false, (p.add_message m).2) := by
  refine ⟨add_message_mem p m, ?_⟩
  by_cases helig : m.event = "message" ∧ m.id ≠ ""
  · by_cases hmem : m.id ∈ p.message_ids
    · rw [add_message_mem p m hmem]
      exact add_message_mem p m hmem
    · rw [add_message_fresh p m helig.1 helig.2 hmem]
      exact add_message_mem _ m (List.mem_cons_self m.id p.message_ids)
  · rw [add_message_not_eligible p m helig]
    exact add_message_not_eligible p m helig

/-- Witness for C2: re-admitting `mA` into a panel that already holds its
id changes nothing and reports "not admitted". -/
theorem c2_dedup_idempotent_witness :
    (⟨["a"], [mA]⟩ : MessagePanel).add_message mA = (false, ⟨["a"], [mA]⟩) :=
  (c2_dedup_idempotent ⟨["a"], [mA]⟩ mA).1 (by decide)

/-- C3: the "new message" notification fires exactly for newly admitted
messages flagged as live; the history-fetch loop never emits one, and in
the live-stream loop the notification count equals the admission count. -/
theorem c3_notify_iff_live (s s' : GuiState) (m : Msg) (is_live_message : Bool)
    (lines : List LineEvent) :
    ((add_message_and_notify s m is_live_message).2 = true ↔
      (s.panel.add_message m).1 = true ∧ is_live_message = true) ∧
    (fetchLoop s' lines).notifs = 0 ∧
    (listenLoop s' lines).notifs = (listenLoop s' lines).admitted := by
  refine ⟨?_, fetchLoop_notifs s' lines, listenLoop_notifs s' lines⟩
  rw [amn_notified]
  simp

/-- C4, counterexample: fetching history that returns only the duplicate
message `mA` reports a total of 1 although zero messages were newly
admitted and the state is unchanged — `total_messages_fetched` counts
every decoded message-kind line, not newly admitted ones. -/
theorem c4_duplicate_counted_counterexample :
    (fetch_history dupState [some [.valid mA]]).2 = 1 ∧
    (fetchLoop dupState [.valid mA]).admitted = 0 ∧
    (fetch_history dupState [some [.valid mA]]).1 = dupState := by decide

/-- C4, amended: the history fetch reports, on completion, the number of
successfully decoded message-kind events across all requested
subscriptions — including duplicates already in the dedup index — while
non-message events, undecodable lines and failed subscriptions contribute
nothing. -/
theorem c4_fetch_count_decoded (s : GuiState)
    (subs : List (Option (List LineEvent))) :
    (fetch_history s subs).2 =
      (subs.map (fun o => (o.getD []).countP isMessageLine)).sum :=
  fetch_history_total s subs

/-- C5: a stream consisting of one undecodable line followed by valid
message-kind lines with fresh, non-empty, pairwise-distinct ids admits
exactly all of them, logs exactly one decode error, and the loop (a total
function — the decode-error branch is recovered locally) never escapes. -/
theorem c5_malformed_line_resilience (s : GuiState) (ms : List Msg)
    (hfresh : ∀ m ∈ ms, m.event = "message" ∧ m.id ≠ "" ∧
      m.id ∉ s.panel.message_ids)
    (hdup : ms.Pairwise (fun a b => a.id ≠ b.id)) :
    (listenLoop s (.malformed :: ms.map .valid)).admitted = ms.length ∧
    (listenLoop s (.malformed :: ms.map .valid)).decodeErrors = 1 := by
  have h := listenLoop_all_fresh s ms hfresh hdup
  constructor
  · simpa [listenLoop] using h.1
  · simp [listenLoop, h.2]

/-- Witness for C5: a malformed line followed by two fresh messages. -/
theorem c5_malformed_line_resilience_witness :
    (listenLoop ⟨MessagePanel.initial, []⟩
      (.malformed :: [mA, mC].map .valid)).admitted = 2 ∧
    (listenLoop ⟨MessagePanel.initial, []⟩
      (.malformed :: [mA, mC].map .valid)).decodeErrors = 1 := by
  have h := c5_malformed_line_resilience ⟨MessagePanel.initial, []⟩ [mA, mC]
    (by decide) (by decide)
  simpa using h

/-- C6: a message is admitted only if its event kind is `message` and its
id is non-empty (and fresh); failing the eligibility test returns
"not admitted" with no mutation, and admission records the id. -/
theorem c6_admission_eligibility (p : MessagePanel) (m : Msg) :
    (¬(m.event = "message" ∧ m.id ≠ "") → p.add_message m = (false, p)) ∧
    ((p.add_message m).1 = true →
      m.event = "message" ∧ m.id ≠ "" ∧ m.id ∉ p.message_ids ∧
      (p.add_message m).2.message_ids = m.id :: p.message_ids) := by
  refine ⟨add_message_not_eligible p m, ?_⟩
  intro hadm
  by_cases helig : m.event = "message" ∧ m.id ≠ ""
  · by_cases hmem : m.id ∈ p.message_ids
    · rw [add_message_mem p m hmem] at hadm
      simp at hadm
    · refine ⟨helig.1, helig.2, hmem, ?_⟩
      rw [add_message_fresh p m helig.1 helig.2 hmem]
  · rw [add_message_not_eligible p m helig] at hadm
    simp at hadm

/-- Witness for C6: a keepalive-kind event with empty id is rejected
without mutation. -/
theorem c6_admission_eligibility_witness :
    MessagePanel.initial.add_message ⟨"", 5, "keepalive", "alerts", "s"⟩ =
      (false, MessagePanel.initial) :=
  (c6_admission_eligibility MessagePanel.initial
    ⟨"", 5, "keepalive", "alerts", "s"⟩).1 (by decide)

/-- C7, counterexample: the dedup index does NOT survive every in-session
operation — `clear_messages` (wired to the "清空消息" button) empties it,
so an id present before clearing is gone afterwards. -/
theorem c7_clear_shrinks_counterexample :
    "a" ∈ (⟨["a"], [mA]⟩ : MessagePanel).message_ids ∧
    "a" ∉ ((⟨["a"], [mA]⟩ : MessagePanel).clear_messages).message_ids := by
  decide

/-- C7, amended: admission only ever grows the dedup index, and the index
is seeded from the persisted history at load (after load it holds exactly
the loaded ids); but `clear_messages` resets it to empty — "never
shrinks" holds only for admissions, not for message clearing (and
`load_messages` re-seeds from scratch via `clear_messages`). -/
theorem c7_dedup_index_evolution (p : MessagePanel) (m : Msg)
    (data : List Msg) (x : String) :
    p.message_ids ⊆ (p.add_message m).2.message_ids ∧
    (p.clear_messages).message_ids = [] ∧
    (x ∈ (p.load_messages data).message_ids ↔ x ∈ data.map Msg.id) := by
  refine ⟨?_, rfl, ?_⟩
  · by_cases helig : m.event = "message" ∧ m.id ≠ ""
    · by_cases hmem : m.id ∈ p.message_ids
      · rw [add_message_mem p m hmem]
        exact List.Subset.refl _
      · rw [add_message_fresh p m helig.1 helig.2 hmem]
        exact List.subset_cons_self _ _
    · rw [add_message_not_eligible p m helig]
      exact List.Subset.refl _
  · unfold MessagePanel.load_messages MessagePanel.clear_messages
    simpa using load_foldl_ids data ([], []) x

/-- C8: after a stream ends with auto-reconnect on and no stop signal
pending, the worker increments its attempt counter, pushes the
`Reconnecting(n)` status, and sleeps `reconnect_delay` one-second ticks
checking the stop flag before each; if the flag stays down it re-enters
Connecting after exactly `reconnect_delay` sleeps, and if the flag is
first seen raised at tick `k` it exits after `k` sleeps without ever
re-entering Connecting. -/
theorem c8_reconnect_backoff (streamErrored : Bool) (attempts : Nat)
    (stopAt : Nat → Bool) (k : Nat) :
    ((∀ j, j < reconnect_delay → stopAt j = false) →
      afterStreamEnd true streamErrored attempts reconnect_delay false stopAt =
        ⟨attempts + 1,
          [reconnectLabel streamErrored (attempts + 1), "连接中..."], true,
          reconnect_delay⟩) ∧
    (k < reconnect_delay → stopAt k = true → (∀ j, j < k → stopAt j = false) →
      afterStreamEnd true streamErrored attempts reconnect_delay false stopAt =
        ⟨attempts + 1, [reconnectLabel streamErrored (attempts + 1)],
          false, k⟩) := by
  constructor
  · intro h
    simp [afterStreamEnd, backoffWait_completes reconnect_delay stopAt h]
  · intro hk hstop hmin
    simp [afterStreamEnd, backoffWait_stops reconnect_delay k stopAt hk hstop hmin]

/-- Witness for C8: with the stop flag never raised, one clean stream end
at attempt counter 0 yields `Reconnecting(1)` then Connecting after the
full five-second backoff. -/
theorem c8_reconnect_backoff_witness :
    afterStreamEnd true false 0 reconnect_delay false (fun _ => false) =
      ⟨1, [reconnectLabel false 1, "连接中..."], true, reconnect_delay⟩ :=
  (c8_reconnect_backoff false 0 (fun _ => false) 0).1 (fun _ _ => rfl)

/-- C9: adding with an empty server or topic fails without mutation, a
duplicate normalized `(server, topic)` key fails without mutation, a
successful add appends exactly the normalized entry (scheme-prefixed by
`normalizeServerURL`, with no trailing slash), key-uniqueness of the
registry is preserved, and any sequence of adds from the empty registry
yields pairwise-distinct keys. -/
theorem c9_registry_normalized_unique (subs : List Subscription)
    (u t : String) (reqs : List (String × String)) :
    ((u = "" ∨ t = "") →
      SubscriptionPanel.add_subscription subs u t = (false, subs)) ∧
    ((∃ s ∈ subs, s.server = normalizeServerURL u ∧ s.topic = t) →
      SubscriptionPanel.add_subscription subs u t = (false, subs)) ∧
    ((SubscriptionPanel.add_subscription subs u t).1 = true →
      (SubscriptionPanel.add_subscription subs u t).2 =
        subs ++ [⟨normalizeServerURL u, t, "未连接", 0⟩] ∧
      (normalizeServerURL u).data.getLast? ≠ some '/') ∧
    (subKeyDistinct subs →
      subKeyDistinct (SubscriptionPanel.add_subscription subs u t).2) ∧
    subKeyDistinct (SubscriptionPanel.addAll [] reqs) := by
  refine ⟨?_, ?_, ?_, add_subscription_distinct subs u t,
    addAll_distinct reqs [] List.Pairwise.nil⟩
  · intro h
    simp [SubscriptionPanel.add_subscription, h]
  · intro h
    have hany : (subs.any fun s =>
        decide (s.server = normalizeServerURL u) && decide (s.topic = t)) = true := by
      obtain ⟨s, hs, h1, h2⟩ := h
      exact List.any_eq_true.mpr ⟨s, hs, by simp [h1, h2]⟩
    by_cases he : u = "" ∨ t = ""
    · simp [SubscriptionPanel.add_subscription, he]
    · simp [SubscriptionPanel.add_subscription, he, hany]
  · intro hadm
    by_cases he : u = "" ∨ t = ""
    · simp [SubscriptionPanel.add_subscription, he] at hadm
    · by_cases hany : (subs.any fun s =>
          decide (s.server = normalizeServerURL u) && decide (s.topic = t)) = true
      · simp [SubscriptionPanel.add_subscription, he, hany] at hadm
      · refine ⟨?_, normalizeServerURL_no_trailing_slash u⟩
        simp [SubscriptionPanel.add_subscription, he, hany]

/-- Witness for C9: adding `ntfy.sh/` (no scheme, trailing slash) under
topic `alerts` to the empty registry stores the normalized
`https://ntfy.sh`. -/
theorem c9_registry_normalized_unique_witness :
    (SubscriptionPanel.add_subscription [] "ntfy.sh/" "alerts").2 =
      [] ++ [⟨normalizeServerURL "ntfy.sh/", "alerts", "未连接", 0⟩] ∧
    (normalizeServerURL "ntfy.sh/").data.getLast? ≠ some '/' :=
  (c9_registry_normalized_unique [] "ntfy.sh/" "alerts" []).2.2.1 (by decide)

/-- C10: constructing an `NtfyMessage` from any JSON dict, serializing it
with `to_dict` and constructing again reproduces every field exactly, so
persisting and reloading preserves messages. -/
theorem c10_ntfy_message_roundtrip (data : List (String × JVal)) :
    NtfyMessage.ofData ((NtfyMessage.ofData data).to_dict) =
      NtfyMessage.ofData data := by
  rfl
